import Mathlib

/-!
Verification development for the collage-cli layout engine.

Shallow embedding of the core layout code:
  * `generateLayout` — the Shape Placer (src/layout.js and the validated
    variant's `generateLayout`); randomness is modelled by a `Rand` record
    supplying, for each grid cell, the (shuffled) list of shapes the source
    would try there.  Every concrete run of the JavaScript corresponds to one
    `Rand` value, so theorems quantified over all `Rand` cover every outcome
    of the internal random choices.
  * `validateLayout`, `generateLayoutWithValidation`, `createFallbackLayout` —
    the Layout Validator and Generator (validated-layout module).
  * `selectPhoto` — the Photo Selector (src/index.js); `Math.random()` is
    modelled by a stream of rationals.
  * `calculatePositions`, `createGridConfig` — the Position Calculator
    (src/pos.js); JavaScript numbers are modelled by `ℚ`, `Math.round` /
    `Math.floor` by explicit floor operations, and `throw` by `Except`.
  * `assignPage` / `pageLoop` — the Page Assembler main loop (src/index.js),
    parameterised by the per-page block supply and per-block render check.

All definitions are executable; machine arithmetic in the source is plain
JavaScript doubles used on small integral values, modelled exactly by `ℚ`/`ℤ`.
-/

namespace Collage

/-- A layout block `{x, y, w, h, index}` exactly as produced by the Shape
Placer: column, row, column-span, row-span and placement-order index. -/
structure Block where
  x : ℕ
  y : ℕ
  w : ℕ
  h : ℕ
  index : ℕ
  deriving DecidableEq, Repr

/-- The set of grid cells `(x, y)` covered by a block. -/
def cellsOf (b : Block) : Finset (ℕ × ℕ) :=
  Finset.Ico b.x (b.x + b.w) ×ˢ Finset.Ico b.y (b.y + b.h)

/-- The footprint of a candidate shape placement, before a block is made. -/
def footprint (x y w h : ℕ) : Finset (ℕ × ℕ) :=
  Finset.Ico x (x + w) ×ˢ Finset.Ico y (y + h)

/-- All cells of a `cols × rows` grid (column coordinate first, matching the
`(x, y)` fields of `Block`). -/
def gridCells (cols rows : ℕ) : Finset (ℕ × ℕ) :=
  Finset.range cols ×ˢ Finset.range rows

/-- Mutable state of the Shape Placer: the boolean occupancy grid (as the set
of occupied cells), the emitted blocks, and the next block index. -/
structure PlacerState where
  occupied : Finset (ℕ × ℕ)
  blocks : List Block
  nextIndex : ℕ
  deriving DecidableEq

/-- `canPlace(x, y, w, h)` from the source: the shape must stay inside the
grid and every cell of its footprint must be free. -/
def canPlace (cols rows : ℕ) (st : PlacerState) (x y w h : ℕ) : Bool :=
  decide (x + w ≤ cols) && decide (y + h ≤ rows) &&
    decide (Disjoint (footprint x y w h) st.occupied)

/-- `place(x, y, w, h)` from the source: mark the footprint occupied and emit
a block carrying the next sequential index. -/
def place (st : PlacerState) (x y w h : ℕ) : PlacerState :=
  { occupied := st.occupied ∪ footprint x y w h
    blocks := st.blocks ++ [⟨x, y, w, h, st.nextIndex⟩]
    nextIndex := st.nextIndex + 1 }

/-- Try each shape of a list in order at a fixed cell; place the first one
that fits (the `for shape of shapesToTry` loops of the source). Returns the
new state and whether a shape was placed. -/
def tryShapes (cols rows : ℕ) (st : PlacerState) (x y : ℕ) :
    List (ℕ × ℕ) → PlacerState × Bool
  | [] => (st, false)
  | (w, h) :: rest =>
    if canPlace cols rows st x y w h then (place st x y w h, true)
    else tryShapes cols rows st x y rest

/-- Outcome of the internal random choices of one `generateLayout` run: for
each cell `(row y, column x)` visited by the first pass, the (possibly empty,
shuffled) list of shapes tried there; likewise for the second pass and for
the second pass's shuffled all-shapes fallback list.  A concrete JavaScript
run instantiates these with shuffles of the fixed small/medium/large palettes
chosen by the `Math.random()` thresholds; theorems quantify over all values,
hence over every random outcome. -/
structure Rand where
  pass1 : ℕ → ℕ → List (ℕ × ℕ)
  pass2 : ℕ → ℕ → List (ℕ × ℕ)
  fallback : ℕ → ℕ → List (ℕ × ℕ)

/-- The row-major cell visit order `(x, y)` of the nested `for y / for x`
loops. -/
def cellList (rows cols : ℕ) : List (ℕ × ℕ) :=
  (List.range rows).flatMap fun y => (List.range cols).map fun x => (x, y)

/-- One first-pass step: at a free cell, try the randomly chosen medium/large
shapes (if any). -/
def pass1Step (cols rows : ℕ) (rand : Rand) (st : PlacerState) (c : ℕ × ℕ) :
    PlacerState :=
  if (c.1, c.2) ∈ st.occupied then st
  else (tryShapes cols rows st c.1 c.2 (rand.pass1 c.2 c.1)).1

/-- One second-pass step: at a free cell, try the randomly chosen category,
then the shuffled full shape palette, and finally fall back to a `1×1`. -/
def pass2Step (cols rows : ℕ) (rand : Rand) (st : PlacerState) (c : ℕ × ℕ) :
    PlacerState :=
  if (c.1, c.2) ∈ st.occupied then st
  else
    let t1 := tryShapes cols rows st c.1 c.2 (rand.pass2 c.2 c.1)
    if t1.2 then t1.1
    else
      let t2 := tryShapes cols rows t1.1 c.1 c.2 (rand.fallback c.2 c.1)
      if t2.2 then t2.1
      else place t2.1 c.1 c.2 1 1

/-- One third-pass step: any still-free cell is placed as a `1×1`. -/
def pass3Step (st : PlacerState) (c : ℕ × ℕ) : PlacerState :=
  if (c.1, c.2) ∈ st.occupied then st else place st c.1 c.2 1 1

/-- `generateLayout(rows, cols)`: the three row-major passes of the Shape
Placer over an initially free grid. -/
def generateLayout (rows cols : ℕ) (rand : Rand) : List Block :=
  let s0 : PlacerState := ⟨∅, [], 0⟩
  let s1 := (cellList rows cols).foldl (pass1Step cols rows rand) s0
  let s2 := (cellList rows cols).foldl (pass2Step cols rows rand) s1
  let s3 := (cellList rows cols).foldl pass3Step s2
  s3.blocks

/-- Union of the cell-sets of a list of blocks. -/
def coveredBy (l : List Block) : Finset (ℕ × ℕ) :=
  l.foldr (fun b acc => cellsOf b ∪ acc) ∅

/-- Two blocks cover disjoint cell-sets. -/
def BlocksDisjoint (a b : Block) : Prop :=
  Disjoint (cellsOf a) (cellsOf b)

/-- A `Rand` whose shape lists are all empty (every category roll declines);
one concrete possible outcome of the random choices. -/
def trivRand : Rand := ⟨fun _ _ => [], fun _ _ => [], fun _ _ => []⟩

/-! ## Layout Validator (`validateLayout`) -/

/-- Validation constraints object.  Fields are optional; the source reads
them with JavaScript's `constraints.f || default`. -/
structure Constraints where
  minBlockVariety : Option ℚ
  maxSingleCellPercent : Option ℚ
  minLargeBlocks : Option ℚ
  deriving DecidableEq

/-- JavaScript `v || d` on an optional numeric field: a missing value or the
falsy number `0` yields the default. -/
def jsOr (o : Option ℚ) (d : ℚ) : ℚ :=
  match o with
  | none => d
  | some v => if v = 0 then d else v

/-- The issue strings pushed by `validateLayout`, abstracted to their kind
(message formatting is not modelled). -/
inductive Issue where
  | aspect (blockIndex : ℕ)
  | variety
  | singleCell
  | largeBlocks
  deriving DecidableEq, Repr

/-- Result record of `validateLayout` (the derived `metrics` object is not
modelled; it repeats the counts used below). -/
structure ValidationResult where
  isValid : Bool
  score : ℚ
  issues : List Issue
  deriving DecidableEq

/-- The allowed aspect ratios `[1/1, 2/3, 3/2, 3/4, 4/3]`. -/
def allowedRatios : List ℚ := [1, 2 / 3, 3 / 2, 3 / 4, 4 / 3]

/-- A block's `w/h` is within the `0.01` tolerance of an allowed ratio. -/
def isValidRatio (b : Block) : Bool :=
  allowedRatios.any fun r => |(b.w : ℚ) / (b.h : ℚ) - r| ≤ 1 / 100

/-- `validateLayout(layoutBlocks, constraints)` from the validated-layout
module: aspect legality plus three quality metrics, each penalising a
running score that starts at 100; the returned score is floored at 0 and
`isValid` is computed from the unfloored score.
(For an empty block list `oneByOnePercent` is JavaScript `0/0 = NaN`, whose
comparison `NaN > maxSingleCellPercent` is false; `ℚ` division gives `0/0 =
0`, and `0 > maxSingleCellPercent` is equally false for the defaults used,
so the branch outcome matches.) -/
def validateLayout (layoutBlocks : List Block) (constraints : Constraints) :
    ValidationResult :=
  let invalidBlocks := layoutBlocks.filter fun b => ¬ isValidRatio b
  let invalidAspectCount := invalidBlocks.length
  let issues1 := invalidBlocks.map fun b => Issue.aspect b.index
  let score1 : ℚ :=
    if invalidAspectCount > 0 then 100 - invalidAspectCount * 20 else 100
  let blockSizes := layoutBlocks.map fun b => b.w * b.h
  let uniqueSizes := blockSizes.dedup.length
  let oneByOneCount :=
    (layoutBlocks.filter fun b => b.w = 1 ∧ b.h = 1).length
  let largeBlocKCount :=
    (layoutBlocks.filter fun b => b.w > 2 ∨ b.h > 2).length
  let oneByOnePercent : ℚ := (oneByOneCount : ℚ) / (layoutBlocks.length : ℚ)
  let minBlockVariety := jsOr constraints.minBlockVariety 3
  let maxSingleCellPercent := jsOr constraints.maxSingleCellPercent (2 / 5)
  let minLargeBlocks := jsOr constraints.minLargeBlocks 1
  let varietyBad :=
    (uniqueSizes : ℚ) < minBlockVariety ∧
      (layoutBlocks.length : ℚ) ≥ minBlockVariety
  let singleBad := oneByOnePercent > maxSingleCellPercent
  let largeBad :=
    (largeBlocKCount : ℚ) < minLargeBlocks ∧ layoutBlocks.length ≥ 4
  let score2 := if varietyBad then score1 - 15 else score1
  let score3 := if singleBad then score2 - 10 else score2
  let score4 := if largeBad then score3 - 10 else score3
  let issues :=
    issues1 ++ (if varietyBad then [Issue.variety] else []) ++
      (if singleBad then [Issue.singleCell] else []) ++
      (if largeBad then [Issue.largeBlocks] else [])
  { isValid := decide (invalidAspectCount = 0) && decide (score4 ≥ 70)
    score := max 0 score4
    issues := issues }

/-- The unfloored score exactly as the claim states it:
`100 − 20·illegalAspect − 15·[variety] − 10·[single-cell] − 10·[large]`,
with the thresholds the validator actually uses (the constraints after the
JavaScript `||` defaulting). -/
def claimRawScore (layoutBlocks : List Block) (constraints : Constraints) :
    ℚ :=
  100 - 20 * ((layoutBlocks.filter fun b => ¬ isValidRatio b).length : ℚ) -
    (if ((layoutBlocks.map fun b => b.w * b.h).dedup.length : ℚ) <
          jsOr constraints.minBlockVariety 3 ∧
        (layoutBlocks.length : ℚ) ≥ jsOr constraints.minBlockVariety 3 then
      15 else 0) -
    (if (((layoutBlocks.filter fun b => b.w = 1 ∧ b.h = 1).length : ℚ) /
          (layoutBlocks.length : ℚ)) >
        jsOr constraints.maxSingleCellPercent (2 / 5) then 10 else 0) -
    (if ((layoutBlocks.filter fun b => b.w > 2 ∨ b.h > 2).length : ℚ) <
          jsOr constraints.minLargeBlocks 1 ∧ layoutBlocks.length ≥ 4 then
      10 else 0)

/-! ## Layout Generator with retry (`generateLayoutWithValidation`) -/

/-- `createFallbackLayout(rows, cols)`: the uniform grid of `1×1` blocks
built by the nested loops with a running index counter. -/
def createFallbackLayout (rows cols : ℕ) : List Block :=
  ((cellList rows cols).foldl
    (fun (acc : List Block × ℕ) c =>
      (acc.1 ++ [⟨c.1, c.2, 1, 1, acc.2⟩], acc.2 + 1))
    ([], 0)).1

/-- The retry loop of `generateLayoutWithValidation`, with the remaining
attempt budget as fuel, the current attempt number `k` (used to draw that
attempt's randomness from the stream `rs`), and the best layout/score seen
so far (`null` / `-1` initially). -/
def glwvGo (rows cols : ℕ) (c : Constraints) (rs : ℕ → Rand) :
    ℕ → ℕ → Option (List Block) → ℚ → List Block
  | 0, _, best, bestScore =>
    match best with
    | some bl => if bestScore > 50 then bl else createFallbackLayout rows cols
    | none => createFallbackLayout rows cols
  | fuel + 1, k, best, bestScore =>
    let layout := generateLayout rows cols (rs k)
    let v := validateLayout layout c
    if v.isValid then layout
    else if v.score > bestScore then
      glwvGo rows cols c rs fuel (k + 1) (some layout) v.score
    else glwvGo rows cols c rs fuel (k + 1) best bestScore

/-- `generateLayoutWithValidation(rows, cols, constraints, maxAttempts)`:
generate, validate, return the first valid layout; else the best scoring
attempt when its score exceeds 50; else the uniform fallback.  `rs` supplies
the randomness of each `generateLayout` attempt. -/
def generateLayoutWithValidation (rows cols : ℕ) (c : Constraints)
    (maxAttempts : ℕ) (rs : ℕ → Rand) : List Block :=
  glwvGo rows cols c rs maxAttempts 0 none (-1)

/-- The fallback layout as the specification describes it: exactly
`rows·cols` blocks, each `1×1`, with row-major indices `0..rows·cols−1`. -/
def fallbackSpec (rows cols : ℕ) : List Block :=
  (List.range (rows * cols)).map fun i => ⟨i % cols, i / cols, 1, 1, i⟩

/-- The generator's contract as the specification states it: the first
attempt whose validation is `isValid` wins; otherwise the first candidate
attaining the maximum score, provided that score exceeds 50; otherwise the
uniform fallback (in particular, always the fallback for `maxAttempts = 0`).
Written from the spec's words, for comparison with the source embedding. -/
def generateValidatedSpec (rows cols : ℕ) (c : Constraints)
    (maxAttempts : ℕ) (rs : ℕ → Rand) : List Block :=
  let layoutAt := fun k => generateLayout rows cols (rs k)
  let scoreAt := fun k => (validateLayout (layoutAt k) c).score
  match (List.range maxAttempts).find?
      (fun k => (validateLayout (layoutAt k) c).isValid) with
  | some k => layoutAt k
  | none =>
    let scores := (List.range maxAttempts).map scoreAt
    let best := scores.foldl max (-1)
    match (List.range maxAttempts).find? (fun k => scoreAt k = best) with
    | some k0 => if best > 50 then layoutAt k0 else fallbackSpec rows cols
    | none => fallbackSpec rows cols

/-! ## Photo Selector (`selectPhoto`, src/index.js) -/

/-- A photo-queue entry: pixel dimensions, the importance tag parsed from the
filename, and the derived orientation flag (`orientation === 'landscape'`).
`id` stands for the file path, identifying the photo. -/
structure Photo where
  w : ℚ
  h : ℚ
  importance : ℚ
  landscape : Bool
  id : ℕ
  deriving DecidableEq, Repr

/-- The score `selectPhoto` computes for one photo against one layout block,
given that photo's `Math.random()` draw `r`.  Comparisons are exact over
`ℚ`; JavaScript evaluates them on IEEE doubles, which agrees except when a
compared quantity lies within double-rounding error of a threshold (for
instance `Math.abs(90/100 - 1) < 0.1` is true on doubles although
`|9/10 - 1| < 1/10` is false exactly).  Every concrete input used by the
theorems below keeps all compared quantities dyadic or far from the
thresholds, so on those inputs the `ℚ` trace and the double trace agree. -/
def photoScore (block : Block) (p : Photo) (r : ℚ) : ℚ :=
  let spanCols : ℚ := block.w
  let spanRows : ℚ := block.h
  let layoutAspect := spanCols / spanRows
  let photoAspect := p.w / p.h
  let base := r * (3 / 10)
  let isLayoutLandscape := spanCols > spanRows
  let isLayoutSquare := spanCols = spanRows
  let isPhotoSquare := |photoAspect - 1| < 1 / 10
  let orientScore : ℚ :=
    if isLayoutSquare ∧ isPhotoSquare then 3
    else if (isLayoutLandscape ↔ p.landscape = true) then 5 / 2
    else -(1 / 2)
  let aspectScore : ℚ := max 0 (2 - |layoutAspect - photoAspect|)
  let layoutSize := spanCols * spanRows
  let importanceScore : ℚ :=
    if p.importance ≥ 3 ∧ layoutSize ≥ 4 then 3 / 2
    else if p.importance ≤ 1 ∧ layoutSize ≤ 2 then 1
    else if p.importance ≥ 2 ∧ 2 ≤ layoutSize ∧ layoutSize ≤ 4 then 1 / 2
    else 0
  let bigScore : ℚ := if layoutSize ≥ 6 ∧ p.importance ≥ 4 then 2 else 0
  base + orientScore + aspectScore + importanceScore + bigScore

/-- The scan of `selectPhoto`, written as the recursion the `for` loop
performs: `k` is the index of the head of the remaining queue, `(bi, bs)`
the best index/score so far (initially `(-1, -1)`); a photo replaces the
best only on a strictly greater score. -/
def selGo (block : Block) (rand : ℕ → ℚ) :
    List Photo → ℕ → ℤ → ℚ → ℤ × ℚ
  | [], _, bi, bs => (bi, bs)
  | p :: rest, k, bi, bs =>
    let s := photoScore block p (rand k)
    if s > bs then selGo block rand rest (k + 1) k s
    else selGo block rand rest (k + 1) bi bs

/-- `selectPhoto(photoQueue, layoutBlock)`: returns the index of the best
scoring photo, or `-1` for an empty queue.  `rand i` is the `Math.random()`
draw made while scoring photo `i`. -/
def selectPhoto (photoQueue : List Photo) (layoutBlock : Block)
    (rand : ℕ → ℚ) : ℤ :=
  (selGo layoutBlock rand photoQueue 0 (-1) (-1)).1

/-- The realized scores of the queue from absolute photo index `k` on. -/
def scoresFrom (layoutBlock : Block) (rand : ℕ → ℚ) :
    ℕ → List Photo → List ℚ
  | _, [] => []
  | k, p :: rest =>
    photoScore layoutBlock p (rand k) :: scoresFrom layoutBlock rand (k + 1)
      rest

/-- The realized scores of the whole queue, in order. -/
def scoresList (photoQueue : List Photo) (layoutBlock : Block)
    (rand : ℕ → ℚ) : List ℚ :=
  scoresFrom layoutBlock rand 0 photoQueue

/-- The selector behaviour actually implemented (the amended claim): `-1`
for an empty queue, else the index of the first photo attaining the maximum
realized score — ties are kept by the earlier photo, and no second
95%-of-maximum tie-break pass exists. -/
def selectPhotoSpec (photoQueue : List Photo) (layoutBlock : Block)
    (rand : ℕ → ℚ) : ℤ :=
  if photoQueue = [] then -1
  else
    let scores := scoresList photoQueue layoutBlock rand
    (scores.indexOf (scores.foldl max (-1)) : ℤ)

/-! ## Position Calculator (src/pos.js) -/

/-- A layout block as `calculatePositions` receives it: arbitrary JavaScript
numbers (modelled by `ℚ`), possibly negative or out of bounds. -/
structure PosBlock where
  x : ℚ
  y : ℚ
  w : ℚ
  h : ℚ
  index : ℕ
  deriving DecidableEq, Repr

/-- `GridConfig` as produced by `createGridConfig`. -/
structure GridConfig where
  cols : ℚ
  rows : ℚ
  cellWidth : ℚ
  cellHeight : ℚ
  padding : ℚ
  bleed : ℚ
  deriving DecidableEq, Repr

/-- `PositionResult`: all fields are produced by `Math.round`, hence
integers. -/
structure PositionResult where
  x : ℤ
  y : ℤ
  width : ℤ
  height : ℤ
  renderWidth : ℤ
  renderHeight : ℤ
  index : ℕ
  deriving DecidableEq, Repr

/-- The configuration errors `calculatePositions` throws. -/
inductive PosError where
  | invalidConfig
  | nonPositiveDims
  | blockOutOfBounds (index : ℕ)
  deriving DecidableEq, Repr

/-- JavaScript `Math.round` (round half towards `+∞`). -/
def jsRound (q : ℚ) : ℤ := ⌊q + 1 / 2⌋

/-- The per-block bounds test of `calculatePositions`. -/
def posOutOfBounds (b : PosBlock) (g : GridConfig) : Prop :=
  b.x < 0 ∨ b.y < 0 ∨ b.x + b.w > g.cols ∨ b.y + b.h > g.rows

instance (b : PosBlock) (g : GridConfig) : Decidable (posOutOfBounds b g) := by
  unfold posOutOfBounds; infer_instance

/-- The `for (const block of layoutBlocks)` loop: throws on the first block
outside the grid; otherwise emits one `PositionResult` per block and records
a warning (by block index) when the computed render dimensions are
non-positive. -/
def calcGo (g : GridConfig) :
    List PosBlock → Except PosError (List PositionResult × List ℕ)
  | [] => .ok ([], [])
  | b :: rest =>
    if posOutOfBounds b g then .error (.blockOutOfBounds b.index)
    else
      let renderWidth := jsRound (g.cellWidth * b.w - g.padding * 2)
      let renderHeight := jsRound (g.cellHeight * b.h - g.padding * 2)
      let px := jsRound (b.x * g.cellWidth + g.padding + g.bleed)
      let py := jsRound (b.y * g.cellHeight + g.padding + g.bleed)
      let width := jsRound (g.cellWidth * b.w)
      let height := jsRound (g.cellHeight * b.h)
      let warn := renderWidth ≤ 0 ∨ renderHeight ≤ 0
      match calcGo g rest with
      | .error e => .error e
      | .ok (ps, ws) =>
        .ok (⟨px, py, width, height, renderWidth, renderHeight, b.index⟩ :: ps,
          (if warn then [b.index] else []) ++ ws)

/-- `calculatePositions(layoutBlocks, gridConfig)`: the two up-front
configuration checks (`!cellWidth || …`, then `cellWidth <= 0 || …`)
followed by the per-block loop.  The result carries the emitted positions
and the indices of blocks whose non-positive render dimensions were only
warned about. -/
def calculatePositions (layoutBlocks : List PosBlock) (g : GridConfig) :
    Except PosError (List PositionResult × List ℕ) :=
  if g.cellWidth = 0 ∨ g.cellHeight = 0 ∨ g.cols = 0 ∨ g.rows = 0 then
    .error .invalidConfig
  else if g.cellWidth ≤ 0 ∨ g.cellHeight ≤ 0 ∨ g.cols ≤ 0 ∨ g.rows ≤ 0 then
    .error .nonPositiveDims
  else calcGo g layoutBlocks

/-- `createGridConfig(pageWidth, pageHeight, gridCols, gridRows, padding,
bleed)`: floor-divided cell dimensions over the bleed-reduced usable area,
with no validation of any input. -/
def createGridConfig (pageWidth pageHeight gridCols gridRows padding bleed :
    ℚ) : GridConfig :=
  let usableWidth := pageWidth - bleed * 2
  let usableHeight := pageHeight - bleed * 2
  { cols := gridCols
    rows := gridRows
    cellWidth := (⌊usableWidth / gridCols⌋ : ℤ)
    cellHeight := (⌊usableHeight / gridRows⌋ : ℤ)
    padding := padding
    bleed := bleed }

/-! ## Page Assembler (src/index.js main loop) -/

/-- View a Shape Placer block as input for the Position Calculator. -/
def toPosBlock (b : Block) : PosBlock :=
  ⟨(b.x : ℚ), (b.y : ℚ), (b.w : ℚ), (b.h : ℚ), b.index⟩

/-- `renderPhoto`'s decision whether a placement is actually pushed onto
`page.files`: the block's pre-calculated position must be found (by index)
and its render dimensions must be positive; otherwise the photo is silently
dropped after having been removed from the queue. -/
def renderOkFromPositions (positions : List PositionResult) (b : Block) :
    Bool :=
  match positions.find? fun p => p.index = b.index with
  | none => false
  | some pos => decide (pos.renderWidth > 0) && decide (pos.renderHeight > 0)

/-- State of one page's block-assignment loop: the remaining queue, the
photos pushed onto `page.files` (placements), and — bookkeeping for the
conservation statement — the photos that `renderPhoto` silently dropped. -/
def AssignState : Type := List Photo × List Photo × List Photo

/-- One iteration of the block-assignment loop (`for blockIndex …`): select
the best photo for block `k`, push a placement when `renderPhoto` accepts
the block, and splice the photo out of the queue. -/
def assignStep (blocks : List Block) (rOk : Block → Bool)
    (rand : ℕ → ℕ → ℚ) (st : AssignState) (k : ℕ) : AssignState :=
  match blocks[k]? with
  | none => st
  | some b =>
    let j := selectPhoto st.1 b (rand k)
    if j = -1 then st
    else
      match st.1[j.toNat]? with
      | none => st
      | some p =>
        (st.1.eraseIdx j.toNat,
          (if rOk b then st.2.1 ++ [p] else st.2.1),
          (if rOk b then st.2.2 else st.2.2 ++ [p]))

/-- One page's assignment loop: `maxPhotosOnPage = min(blocks, queue)` fixed
up front, block indices visited in order. -/
def assignPage (blocks : List Block) (rOk : Block → Bool)
    (rand : ℕ → ℕ → ℚ) (photoQueue : List Photo) : AssignState :=
  (List.range (min blocks.length photoQueue.length)).foldl
    (assignStep blocks rOk rand) (photoQueue, [], [])

/-- The outer `while (photoQueue.length > 0)` page loop, with fuel: each
page draws its layout blocks from `blocksFor`, its render acceptance from
`rOkFor`, and its selector randomness from `rand`.  Returns the pages (each
as its placement list and its dropped-photo list) and the final queue. -/
def pageLoop (blocksFor : ℕ → List Block) (rOkFor : ℕ → Block → Bool)
    (rand : ℕ → ℕ → ℕ → ℚ) :
    ℕ → ℕ → List Photo → List (List Photo × List Photo) × List Photo
  | 0, _, photoQueue => ([], photoQueue)
  | fuel + 1, pageNo, photoQueue =>
    if photoQueue = [] then ([], photoQueue)
    else
      let st := assignPage (blocksFor pageNo) (rOkFor pageNo) (rand pageNo)
        photoQueue
      let rest := pageLoop blocksFor rOkFor rand fuel (pageNo + 1) st.1
      ((st.2.1, st.2.2) :: rest.1, rest.2)

/-- JavaScript `Math.ceil(Math.sqrt(n))` on a natural number. -/
def ceilSqrt (n : ℕ) : ℕ :=
  if Nat.sqrt n * Nat.sqrt n = n then Nat.sqrt n else Nat.sqrt n + 1

/-- The grid-dimension choice of `generateGrid(page, photosRemaining)`
(src/index.js lines 133–157): the CLI grid size (`opt.grid || 6`) unless a
positive remaining-photo count is supplied, in which case the grid is sized
by photo-count bands — never below `2×2`. -/
def generateGridSize (gridOpt : ℕ) (photosRemaining : Option ℕ) : ℕ × ℕ :=
  let gridSize := if gridOpt = 0 then 6 else gridOpt
  match photosRemaining with
  | none => (gridSize, gridSize)
  | some n =>
    if n = 0 then (gridSize, gridSize)
    else
      let minGridSize := ceilSqrt n
      if n ≤ 4 then (max 2 minGridSize, max 2 minGridSize)
      else if n ≤ 9 then (max 3 minGridSize, max 3 minGridSize)
      else if n ≤ 16 then (max 4 minGridSize, max 4 minGridSize)
      else if n ≤ 25 then (max 5 minGridSize, max 5 minGridSize)
      else (gridSize, gridSize)

/-- Concrete photo used by witnesses and counterexamples. -/
def photoA : Photo := ⟨100, 100, 3, true, 0⟩

/-- Concrete landscape photo of aspect exactly 2, used by the selector
counterexample; every quantity scored from it is a dyadic rational. -/
def photoC : Photo := ⟨200, 100, 0, true, 0⟩

/-- Concrete landscape photo of aspect exactly 3/2, used by the selector
counterexample; every quantity scored from it is a dyadic rational. -/
def photoD : Photo := ⟨150, 100, 0, true, 1⟩

/-- A concrete `2×2` block. -/
def block22 : Block := ⟨0, 0, 2, 2, 0⟩

/-- A concrete `1×1` block at the origin. -/
def block11 : Block := ⟨0, 0, 1, 1, 0⟩

/-- A concrete `2×1` (landscape) block. -/
def block21 : Block := ⟨0, 0, 2, 1, 0⟩

/-- The grid configuration of a degenerate but reachable CLI run:
`--size 48x48px -g 6`, default border (so padding `min(4, 8) = 4`), no
bleed, on a page that is not the last (more than 36 photos queued). -/
def tinyConfig : GridConfig := createGridConfig 48 48 6 6 4 0

/-- The positions the tiny configuration produces for the single block
`{x:0, y:0, w:1, h:1, index:0}`. -/
def tinyPositions : List PositionResult :=
  match calculatePositions [toPosBlock block11] tinyConfig with
  | .ok (ps, _) => ps
  | .error _ => []

/-- The Shape Placer's running invariant: the occupancy grid stays inside
the grid bounds, it is exactly the union of the emitted blocks' cells, and
the emitted blocks are pairwise disjoint. -/
def PlacerInv (cols rows : ℕ) (st : PlacerState) : Prop :=
  st.occupied ⊆ gridCells cols rows ∧
  st.occupied = coveredBy st.blocks ∧
  List.Pairwise BlocksDisjoint st.blocks

/-- Decidable equality for `Except` results, used to evaluate the embedded
position calculator on concrete inputs. -/
instance {ε α : Type} [DecidableEq ε] [DecidableEq α] :
    DecidableEq (Except ε α) := fun a b =>
  match a, b with
  | .error e, .error f =>
    if h : e = f then .isTrue (by rw [h]) else .isFalse (by simp [h])
  | .error _, .ok _ => .isFalse (by simp)
  | .ok _, .error _ => .isFalse (by simp)
  | .ok u, .ok v =>
    if h : u = v then .isTrue (by rw [h]) else .isFalse (by simp [h])

/-! ## Theorems -/

unseal Rat.add Rat.mul Rat.sub Rat.inv in
/-- Claim C8: with `createGridConfig(1200, 1200, 4, 4, 10, 0)`, the single
block `{x:0, y:0, w:2, h:2, index:0}` yields exactly one `PositionResult`
with `width = height = 600`, `renderWidth = renderHeight = 580` and
`x = y = 10` (and no warnings). -/
theorem c8_position_roundtrip :
    calculatePositions [(⟨0, 0, 2, 2, 0⟩ : PosBlock)]
        (createGridConfig 1200 1200 4 4 10 0) =
      .ok ([⟨10, 10, 600, 600, 580, 580, 0⟩], []) := by
  decide

unseal Rat.add Rat.mul Rat.sub Rat.inv in
/-- Claim C9: `validateLayout` on an empty block list returns
`isValid = true`, `score = 100` and no issues — no penalty rule fires on
zero blocks (in particular the `1×1`-fraction branch, whose JavaScript
`0/0 = NaN` comparison is false, is not taken). -/
theorem c9_empty_layout_valid :
    validateLayout [] ⟨none, none, none⟩ =
      { isValid := true, score := 100, issues := [] } := by
  decide

/-! ### Shape Placer partition (Claim C1) -/

theorem mem_footprint {a b x y w h : ℕ} :
    (a, b) ∈ footprint x y w h ↔ (x ≤ a ∧ a < x + w) ∧ y ≤ b ∧ b < y + h := by
  simp [footprint, Finset.mem_product, Finset.mem_Ico]

theorem footprint_subset_gridCells {cols rows x y w h : ℕ}
    (hw : x + w ≤ cols) (hh : y + h ≤ rows) :
    footprint x y w h ⊆ gridCells cols rows := by
  intro c hc
  obtain ⟨a, b⟩ := c
  rw [mem_footprint] at hc
  simp only [gridCells, Finset.mem_product, Finset.mem_range]
  exact ⟨lt_of_lt_of_le hc.1.2 hw, lt_of_lt_of_le hc.2.2 hh⟩

theorem footprint_one_one (x y : ℕ) : footprint x y 1 1 = {(x, y)} := by
  ext c
  obtain ⟨a, b⟩ := c
  simp only [mem_footprint, Finset.mem_singleton, Prod.mk.injEq]
  omega

theorem coveredBy_cons (b : Block) (l : List Block) :
    coveredBy (b :: l) = cellsOf b ∪ coveredBy l := rfl

theorem coveredBy_append_singleton (l : List Block) (b : Block) :
    coveredBy (l ++ [b]) = coveredBy l ∪ cellsOf b := by
  induction l with
  | nil => simp [coveredBy]
  | cons a t ih =>
    simp only [List.cons_append, coveredBy_cons, ih, Finset.union_assoc]

theorem cellsOf_subset_coveredBy {b : Block} {l : List Block} (h : b ∈ l) :
    cellsOf b ⊆ coveredBy l := by
  induction l with
  | nil => cases h
  | cons a t ih =>
    rw [coveredBy_cons]
    rcases List.mem_cons.mp h with rfl | h2
    · exact Finset.subset_union_left
    · exact (ih h2).trans Finset.subset_union_right

theorem place_inv {cols rows : ℕ} {st : PlacerState} {x y w h : ℕ}
    (hinv : PlacerInv cols rows st) (hw : x + w ≤ cols) (hh : y + h ≤ rows)
    (hdisj : Disjoint (footprint x y w h) st.occupied) :
    PlacerInv cols rows (place st x y w h) := by
  obtain ⟨hsub, hcov, hpair⟩ := hinv
  refine ⟨?_, ?_, ?_⟩
  · exact Finset.union_subset hsub (footprint_subset_gridCells hw hh)
  · show st.occupied ∪ footprint x y w h = coveredBy (st.blocks ++ [_])
    rw [coveredBy_append_singleton, hcov]
    rfl
  · show List.Pairwise BlocksDisjoint (st.blocks ++ [_])
    rw [List.pairwise_append]
    refine ⟨hpair, List.pairwise_singleton _ _, ?_⟩
    intro a ha b hb
    rcases List.mem_singleton.mp hb with rfl
    have h1 : cellsOf a ⊆ st.occupied := hcov ▸ cellsOf_subset_coveredBy ha
    exact (hdisj.mono_right h1).symm

theorem canPlace_inv {cols rows : ℕ} {st : PlacerState} {x y w h : ℕ}
    (hc : canPlace cols rows st x y w h = true)
    (hinv : PlacerInv cols rows st) :
    PlacerInv cols rows (place st x y w h) := by
  simp only [canPlace, Bool.and_eq_true, decide_eq_true_eq] at hc
  exact place_inv hinv hc.1.1 hc.1.2 hc.2

theorem tryShapes_inv {cols rows : ℕ} {x y : ℕ} :
    ∀ (shapes : List (ℕ × ℕ)) {st : PlacerState},
      PlacerInv cols rows st →
      PlacerInv cols rows (tryShapes cols rows st x y shapes).1 := by
  intro shapes
  induction shapes with
  | nil => intro st h; exact h
  | cons s rest ih =>
    intro st h
    obtain ⟨w, hsnd⟩ := s
    simp only [tryShapes]
    split
    · exact canPlace_inv (by assumption) h
    · exact ih h

theorem tryShapes_not_placed {cols rows x y : ℕ} :
    ∀ (shapes : List (ℕ × ℕ)) (st : PlacerState),
      (tryShapes cols rows st x y shapes).2 = false →
      (tryShapes cols rows st x y shapes).1 = st := by
  intro shapes
  induction shapes with
  | nil => intro st _; rfl
  | cons s rest ih =>
    intro st h
    obtain ⟨w, hsnd⟩ := s
    simp only [tryShapes] at h ⊢
    split
    · rename_i hcp
      simp only [hcp, if_true] at h
      cases h
    · rename_i hcp
      simp only [hcp] at h
      exact ih st h

theorem pass1Step_inv {cols rows : ℕ} (rand : Rand) {st : PlacerState}
    (c : ℕ × ℕ) (hinv : PlacerInv cols rows st) :
    PlacerInv cols rows (pass1Step cols rows rand st c) := by
  unfold pass1Step
  split
  · exact hinv
  · exact tryShapes_inv _ hinv

theorem place_free_cell_inv {cols rows : ℕ} {st : PlacerState} {x y : ℕ}
    (hx : x < cols) (hy : y < rows) (hfree : (x, y) ∉ st.occupied)
    (hinv : PlacerInv cols rows st) :
    PlacerInv cols rows (place st x y 1 1) := by
  refine place_inv hinv (by omega) (by omega) ?_
  rw [footprint_one_one, Finset.disjoint_singleton_left]
  exact hfree

theorem pass2Step_inv {cols rows : ℕ} (rand : Rand) {st : PlacerState}
    {c : ℕ × ℕ} (hx : c.1 < cols) (hy : c.2 < rows)
    (hinv : PlacerInv cols rows st) :
    PlacerInv cols rows (pass2Step cols rows rand st c) := by
  unfold pass2Step
  split
  · exact hinv
  · rename_i hfree
    dsimp only
    rcases h1 : tryShapes cols rows st c.1 c.2 (rand.pass2 c.2 c.1)
      with ⟨st1, p1⟩
    simp only [h1]
    cases p1
    · have e1 : st1 = st := by
        have h := tryShapes_not_placed (rand.pass2 c.2 c.1) st (by rw [h1])
        rwa [h1] at h
      have hinv1 : PlacerInv cols rows st1 := by rw [e1]; exact hinv
      simp only [Bool.false_eq_true, if_false]
      rcases h2 : tryShapes cols rows st1 c.1 c.2 (rand.fallback c.2 c.1)
        with ⟨st2, p2⟩
      simp only [h2]
      cases p2
      · have e2 : st2 = st1 := by
          have h := tryShapes_not_placed (rand.fallback c.2 c.1) st1
            (by rw [h2])
          rwa [h2] at h
        simp only [Bool.false_eq_true, if_false, e2, e1]
        exact place_free_cell_inv hx hy hfree hinv
      · simp only [if_true]
        have h := @tryShapes_inv cols rows c.1 c.2 (rand.fallback c.2 c.1)
          st1 hinv1
        rwa [h2] at h
    · simp only [if_true]
      have h := @tryShapes_inv cols rows c.1 c.2 (rand.pass2 c.2 c.1)
        st hinv
      rwa [h1] at h

theorem pass3Step_inv {cols rows : ℕ} {st : PlacerState} {c : ℕ × ℕ}
    (hx : c.1 < cols) (hy : c.2 < rows) (hinv : PlacerInv cols rows st) :
    PlacerInv cols rows (pass3Step st c) := by
  unfold pass3Step
  split
  · exact hinv
  · rename_i hfree
    exact place_free_cell_inv hx hy hfree hinv

theorem foldl_preserves {α σ : Type} (P : σ → Prop) (f : σ → α → σ) :
    ∀ (l : List α), (∀ c ∈ l, ∀ s, P s → P (f s c)) →
      ∀ s, P s → P (l.foldl f s) := by
  intro l
  induction l with
  | nil => intro _ s h; exact h
  | cons a t ih =>
    intro hstep s h
    exact ih (fun c hc s hs => hstep c (List.mem_cons_of_mem a hc) s hs) _
      (hstep a (List.mem_cons_self a t) s h)

theorem mem_cellList {rows cols : ℕ} {c : ℕ × ℕ} :
    c ∈ cellList rows cols ↔ c.1 < cols ∧ c.2 < rows := by
  obtain ⟨a, b⟩ := c
  simp only [cellList, List.mem_flatMap, List.mem_map, List.mem_range,
    Prod.mk.injEq]
  constructor
  · rintro ⟨y, hy, x, hx, rfl, rfl⟩
    exact ⟨hx, hy⟩
  · rintro ⟨hx, hy⟩
    exact ⟨b, hy, a, hx, rfl, rfl⟩

theorem pass3Step_occ_mono (st : PlacerState) (c : ℕ × ℕ) :
    st.occupied ⊆ (pass3Step st c).occupied := by
  unfold pass3Step
  split
  · exact Finset.Subset.refl _
  · exact Finset.subset_union_left

theorem pass3_fold_occ_mono :
    ∀ (l : List (ℕ × ℕ)) (st : PlacerState),
      st.occupied ⊆ (l.foldl pass3Step st).occupied := by
  intro l
  induction l with
  | nil => intro st; exact Finset.Subset.refl _
  | cons a t ih =>
    intro st
    exact (pass3Step_occ_mono st a).trans (ih _)

theorem pass3_covers :
    ∀ (l : List (ℕ × ℕ)) (st : PlacerState) (c : ℕ × ℕ), c ∈ l →
      c ∈ (l.foldl pass3Step st).occupied := by
  intro l
  induction l with
  | nil => intro st c hc; cases hc
  | cons a t ih =>
    intro st c hc
    rcases List.mem_cons.mp hc with rfl | h2
    · refine pass3_fold_occ_mono t _ ?_
      unfold pass3Step
      split
      · assumption
      · exact Finset.mem_union_right _ (by
          rw [footprint_one_one]
          exact Finset.mem_singleton_self _)
    · exact ih _ c h2

/-- Claim C1: for every `rows, cols ≥ 1` and every outcome of the internal
random choices, the blocks returned by `generateLayout` partition the grid
exactly: the cell-sets of any two distinct blocks are disjoint, and their
union is the set of all grid cells. -/
theorem c1_generateLayout_partitions (rows cols : ℕ) (rand : Rand)
    (hrows : 1 ≤ rows) (hcols : 1 ≤ cols) :
    List.Pairwise BlocksDisjoint (generateLayout rows cols rand) ∧
    coveredBy (generateLayout rows cols rand) = gridCells cols rows := by
  unfold generateLayout
  set s0 : PlacerState := ⟨∅, [], 0⟩ with hs0
  have h0 : PlacerInv cols rows s0 := by
    refine ⟨Finset.empty_subset _, rfl, List.Pairwise.nil⟩
  have h1 : PlacerInv cols rows
      ((cellList rows cols).foldl (pass1Step cols rows rand) s0) :=
    foldl_preserves _ _ _ (fun c _ s hs => pass1Step_inv rand c hs) s0 h0
  have h2 : PlacerInv cols rows
      ((cellList rows cols).foldl (pass2Step cols rows rand)
        ((cellList rows cols).foldl (pass1Step cols rows rand) s0)) :=
    foldl_preserves _ _ _
      (fun c hc s hs =>
        pass2Step_inv rand (mem_cellList.mp hc).1 (mem_cellList.mp hc).2 hs)
      _ h1
  set s2 := (cellList rows cols).foldl (pass2Step cols rows rand)
    ((cellList rows cols).foldl (pass1Step cols rows rand) s0) with hs2
  have h3 : PlacerInv cols rows ((cellList rows cols).foldl pass3Step s2) :=
    foldl_preserves _ _ _
      (fun c hc s hs =>
        pass3Step_inv (mem_cellList.mp hc).1 (mem_cellList.mp hc).2 hs)
      _ h2
  set s3 := (cellList rows cols).foldl pass3Step s2 with hs3
  obtain ⟨hsub, hcov, hpair⟩ := h3
  have hfull : gridCells cols rows ⊆ s3.occupied := by
    intro c hc
    refine pass3_covers _ _ _ ?_
    rw [mem_cellList]
    simp only [gridCells, Finset.mem_product, Finset.mem_range] at hc
    exact hc
  refine ⟨hpair, ?_⟩
  rw [← hcov]
  exact Finset.Subset.antisymm hsub hfull

/-- Witness for C1: the partition property holds at the concrete input
`rows = cols = 2` with the all-empty random outcome. -/
theorem c1_witness :
    1 ≤ 2 ∧ 1 ≤ 2 ∧
    (List.Pairwise BlocksDisjoint (generateLayout 2 2 trivRand) ∧
      coveredBy (generateLayout 2 2 trivRand) = gridCells 2 2) :=
  ⟨by decide, by decide,
    c1_generateLayout_partitions 2 2 trivRand (by decide) (by decide)⟩

/-! ### Layout Validator formula (Claim C3) -/

/-- Claim C3: `validateLayout` returns
`score = max(0, 100 − 20·illegal − 15·[variety] − 10·[single] − 10·[large])`
and `isValid` is true iff the illegal-aspect count is 0 and the unfloored
score is at least 70 (thresholds after the JavaScript `||` defaulting). -/
theorem c3_validateLayout_formula (layoutBlocks : List Block)
    (constraints : Constraints) :
    (validateLayout layoutBlocks constraints).score =
        max 0 (claimRawScore layoutBlocks constraints) ∧
      ((validateLayout layoutBlocks constraints).isValid = true ↔
        (layoutBlocks.filter fun b => ¬ isValidRatio b).length = 0 ∧
          claimRawScore layoutBlocks constraints ≥ 70) := by
  unfold validateLayout claimRawScore
  dsimp only
  have hbase : ∀ m : ℕ,
      (if m > 0 then (100 : ℚ) - m * 20 else 100) = 100 - 20 * (m : ℚ) := by
    intro m
    split_ifs with h
    · ring
    · have hm : m = 0 := by omega
      subst hm
      norm_num
  rw [hbase]
  split_ifs with h2 h3 h4 <;>
    refine ⟨by congr 1 <;> push_cast <;> ring, ?_⟩ <;>
    simp only [Bool.and_eq_true, decide_eq_true_eq] <;>
    constructor <;> rintro ⟨h5, h6⟩ <;> refine ⟨h5, ?_⟩ <;>
    push_cast at h6 ⊢ <;> linarith

/-! ### Photo Selector (Claim C5) -/

theorem le_foldl_max (l : List ℚ) : ∀ b : ℚ, b ≤ l.foldl max b := by
  induction l with
  | nil => intro b; exact le_refl b
  | cons x t ih =>
    intro b
    exact (le_max_left b x).trans (ih (max b x))

theorem foldl_max_of_le (l : List ℚ) :
    ∀ b : ℚ, (∀ x ∈ l, x ≤ b) → l.foldl max b = b := by
  induction l with
  | nil => intro b _; rfl
  | cons x t ih =>
    intro b h
    have hx : x ≤ b := h x (List.mem_cons_self x t)
    rw [List.foldl_cons, max_eq_left hx]
    exact ih b fun y hy => h y (List.mem_cons_of_mem x hy)

theorem mem_le_foldl_max (l : List ℚ) :
    ∀ (b x : ℚ), x ∈ l → x ≤ l.foldl max b := by
  induction l with
  | nil => intro b x hx; cases hx
  | cons y t ih =>
    intro b x hx
    rcases List.mem_cons.mp hx with rfl | h2
    · exact (le_max_right b x).trans (le_foldl_max t (max b x))
    · exact ih (max b y) x h2

theorem foldl_max_eq_or_mem (l : List ℚ) :
    ∀ b : ℚ, l.foldl max b = b ∨ l.foldl max b ∈ l := by
  induction l with
  | nil => intro b; exact Or.inl rfl
  | cons x t ih =>
    intro b
    rcases ih (max b x) with h | h
    · rcases max_cases b x with ⟨he, _⟩ | ⟨he, _⟩
      · rw [List.foldl_cons, h, he]
        exact Or.inl rfl
      · rw [List.foldl_cons, h, he]
        exact Or.inr (List.mem_cons_self x t)
    · exact Or.inr (List.mem_cons_of_mem x h)

theorem scoresFrom_length (layoutBlock : Block) (rand : ℕ → ℚ) :
    ∀ (l : List Photo) (k : ℕ),
      (scoresFrom layoutBlock rand k l).length = l.length := by
  intro l
  induction l with
  | nil => intro k; rfl
  | cons p t ih =>
    intro k
    simp only [scoresFrom, List.length_cons, ih]

theorem selGo_of_all_le (layoutBlock : Block) (rand : ℕ → ℚ) :
    ∀ (l : List Photo) (k : ℕ) (bi : ℤ) (bs : ℚ),
      (∀ s ∈ scoresFrom layoutBlock rand k l, s ≤ bs) →
      selGo layoutBlock rand l k bi bs = (bi, bs) := by
  intro l
  induction l with
  | nil => intro k bi bs _; rfl
  | cons p t ih =>
    intro k bi bs h
    have h0 : photoScore layoutBlock p (rand k) ≤ bs :=
      h _ (List.mem_cons_self _ _)
    simp only [selGo, not_lt.mpr h0, if_false, gt_iff_lt]
    exact ih (k + 1) bi bs fun s hs =>
      h s (List.mem_cons_of_mem _ hs)

theorem selGo_argmax (layoutBlock : Block) (rand : ℕ → ℚ) :
    ∀ (l : List Photo) (k : ℕ) (bi : ℤ) (bs : ℚ),
      (∃ s ∈ scoresFrom layoutBlock rand k l, bs < s) →
      selGo layoutBlock rand l k bi bs =
        (((k + (scoresFrom layoutBlock rand k l).indexOf
            ((scoresFrom layoutBlock rand k l).foldl max bs) : ℕ) : ℤ),
          (scoresFrom layoutBlock rand k l).foldl max bs) := by
  intro l
  induction l with
  | nil =>
    intro k bi bs h
    simp only [scoresFrom, List.not_mem_nil] at h
    obtain ⟨s, hs, _⟩ := h
    cases hs
  | cons p t ih =>
    intro k bi bs h
    set s0 := photoScore layoutBlock p (rand k) with hs0
    by_cases hgt : s0 > bs
    · have hstep : selGo layoutBlock rand (p :: t) k bi bs =
          selGo layoutBlock rand t (k + 1) k s0 := by
        simp only [selGo, ← hs0, gt_iff_lt, if_pos hgt]
      rw [hstep]
      have hmax0 : max bs s0 = s0 := max_eq_right hgt.le
      by_cases hall : ∀ s ∈ scoresFrom layoutBlock rand (k + 1) t, s ≤ s0
      · rw [selGo_of_all_le layoutBlock rand t (k + 1) k s0 hall]
        have hM : (scoresFrom layoutBlock rand k (p :: t)).foldl max bs
            = s0 := by
          simp only [scoresFrom, List.foldl_cons, ← hs0, hmax0]
          exact foldl_max_of_le _ s0 hall
        rw [hM]
        have hidx : (scoresFrom layoutBlock rand k (p :: t)).indexOf s0
            = 0 := by
          simp only [scoresFrom, ← hs0]
          exact List.indexOf_cons_self s0 _
        rw [hidx]
        simp
      · push_neg at hall
        obtain ⟨s1, hs1, hlt1⟩ := hall
        have hrec := ih (k + 1) k s0 ⟨s1, hs1, hlt1⟩
        rw [hrec]
        have hMeq : (scoresFrom layoutBlock rand k (p :: t)).foldl max bs =
            (scoresFrom layoutBlock rand (k + 1) t).foldl max s0 := by
          simp only [scoresFrom, List.foldl_cons, ← hs0, hmax0]
        have hMgt : s0 <
            (scoresFrom layoutBlock rand (k + 1) t).foldl max s0 :=
          lt_of_lt_of_le hlt1 (mem_le_foldl_max _ s0 s1 hs1)
        have hidx : (scoresFrom layoutBlock rand k (p :: t)).indexOf
              ((scoresFrom layoutBlock rand (k + 1) t).foldl max s0) =
            (scoresFrom layoutBlock rand (k + 1) t).indexOf
              ((scoresFrom layoutBlock rand (k + 1) t).foldl max s0) + 1 := by
          simp only [scoresFrom, ← hs0]
          exact List.indexOf_cons_ne _ (by exact ne_of_lt hMgt)
        rw [hMeq, hidx]
        exact Prod.ext (by push_cast; ring) rfl
    · have hstep : selGo layoutBlock rand (p :: t) k bi bs =
          selGo layoutBlock rand t (k + 1) bi bs := by
        simp only [selGo, ← hs0, gt_iff_lt, if_neg hgt]
      rw [hstep]
      have hle0 : s0 ≤ bs := not_lt.mp hgt
      have hex : ∃ s ∈ scoresFrom layoutBlock rand (k + 1) t, bs < s := by
        obtain ⟨s, hs, hlt⟩ := h
        simp only [scoresFrom, List.mem_cons, ← hs0] at hs
        rcases hs with rfl | hs
        · exact absurd hlt (not_lt.mpr hle0)
        · exact ⟨s, hs, hlt⟩
      have hrec := ih (k + 1) bi bs hex
      rw [hrec]
      have hMeq : (scoresFrom layoutBlock rand k (p :: t)).foldl max bs =
          (scoresFrom layoutBlock rand (k + 1) t).foldl max bs := by
        simp only [scoresFrom, List.foldl_cons, ← hs0, max_eq_left hle0]
      have hMgt : bs < (scoresFrom layoutBlock rand (k + 1) t).foldl max bs := by
        obtain ⟨s, hs, hlt⟩ := hex
        exact lt_of_lt_of_le hlt (mem_le_foldl_max _ bs s hs)
      have hidx : (scoresFrom layoutBlock rand k (p :: t)).indexOf
            ((scoresFrom layoutBlock rand (k + 1) t).foldl max bs) =
          (scoresFrom layoutBlock rand (k + 1) t).indexOf
            ((scoresFrom layoutBlock rand (k + 1) t).foldl max bs) + 1 := by
        simp only [scoresFrom, ← hs0]
        exact List.indexOf_cons_ne _ (ne_of_lt (lt_of_le_of_lt hle0 hMgt))
      rw [hMeq, hidx]
      exact Prod.ext (by push_cast; ring) rfl

theorem photoScore_lower_bound (layoutBlock : Block) (p : Photo) {r : ℚ}
    (hr : 0 ≤ r) : -(1 / 2) ≤ photoScore layoutBlock p r := by
  unfold photoScore
  dsimp only
  have hb : (0 : ℚ) ≤ r * (3 / 10) := mul_nonneg hr (by norm_num)
  have ha : (0 : ℚ) ≤ max 0 (2 - |(layoutBlock.w : ℚ) / (layoutBlock.h : ℚ) -
      p.w / p.h|) := le_max_left _ _
  split_ifs <;> linarith

/-- Claim C5 (amended): `selectPhoto` scores every queued photo and returns
the index of the first photo attaining the maximum realized score (later
photos replace the best only on a strictly greater score, so ties go to the
earlier photo); for an empty queue it returns `-1`.  No 95%-of-maximum
near-tie collection or uniform random tie-break pass exists. -/
theorem c5_selectPhoto_first_argmax (photoQueue : List Photo)
    (layoutBlock : Block) (rand : ℕ → ℚ) (hr : ∀ i, 0 ≤ rand i) :
    selectPhoto photoQueue layoutBlock rand =
      selectPhotoSpec photoQueue layoutBlock rand := by
  cases photoQueue with
  | nil => rfl
  | cons p rest =>
    have hex : ∃ s ∈ scoresFrom layoutBlock rand 0 (p :: rest), (-1 : ℚ) < s := by
      refine ⟨photoScore layoutBlock p (rand 0), List.mem_cons_self _ _, ?_⟩
      have := photoScore_lower_bound layoutBlock p (hr 0)
      linarith
    unfold selectPhoto selectPhotoSpec scoresList
    rw [selGo_argmax layoutBlock rand (p :: rest) 0 (-1) (-1) hex]
    simp

theorem selectPhoto_bounds (photoQueue : List Photo) (layoutBlock : Block)
    (rand : ℕ → ℚ) (hq : photoQueue ≠ []) (hr : ∀ i, 0 ≤ rand i) :
    0 ≤ selectPhoto photoQueue layoutBlock rand ∧
      (selectPhoto photoQueue layoutBlock rand).toNat <
        photoQueue.length := by
  obtain ⟨p, rest, rfl⟩ := List.exists_cons_of_ne_nil hq
  have hex : ∃ s ∈ scoresFrom layoutBlock rand 0 (p :: rest), (-1 : ℚ) < s := by
    refine ⟨photoScore layoutBlock p (rand 0), List.mem_cons_self _ _, ?_⟩
    have := photoScore_lower_bound layoutBlock p (hr 0)
    linarith
  unfold selectPhoto
  rw [selGo_argmax layoutBlock rand (p :: rest) 0 (-1) (-1) hex]
  have hMgt : (-1 : ℚ) <
      (scoresFrom layoutBlock rand 0 (p :: rest)).foldl max (-1) := by
    obtain ⟨s, hs, hlt⟩ := hex
    exact lt_of_lt_of_le hlt (mem_le_foldl_max _ (-1) s hs)
  have hMmem : (scoresFrom layoutBlock rand 0 (p :: rest)).foldl max (-1) ∈
      scoresFrom layoutBlock rand 0 (p :: rest) := by
    rcases foldl_max_eq_or_mem (scoresFrom layoutBlock rand 0 (p :: rest))
      (-1) with h | h
    · rw [h] at hMgt
      exact absurd hMgt (lt_irrefl _)
    · exact h
  constructor
  · exact Int.ofNat_nonneg _
  · rw [Int.toNat_ofNat]
    have := List.indexOf_lt_length.mpr hMmem
    rw [scoresFrom_length layoutBlock rand (p :: rest) 0] at this
    simpa using this

unseal Rat.add Rat.mul Rat.sub Rat.inv in
/-- Counterexample to C5 as stated: against the `2×1` block, photo C
(aspect 2) scores `11/2 + 3r` tenths and photo D (aspect 3/2) scores
`5 + 3r` tenths — a deterministic gap of `1/2`.  At the realized
randomness `r = (0, 4/5)` photo D scores `5.24 ≥ 0.95·5.5`, so both photos
qualify under the claimed 95%-of-maximum rule and the claimed procedure
must pick uniformly at random between them; yet `selectPhoto` returns
index 0, and under no admissible randomness (`Math.random() ∈ [0, 1)`) can
it return index 1, since photo D's score stays below `5.3 < 5.5`.  All
compared quantities here (`2`, `3/2`, `1/2`, `5.5`, `5.24`, `5.225`) are
exactly representable in binary doubles or separated from every branch
threshold by far more than double-rounding error, so the JavaScript trace
coincides with this `ℚ` trace. -/
theorem c5_counterexample :
    (photoScore block21 photoD ((4 : ℚ) / 5) ≥
        (95 / 100) * photoScore block21 photoC 0 ∧
      photoScore block21 photoD ((4 : ℚ) / 5) <
        photoScore block21 photoC 0 ∧
      selectPhoto [photoC, photoD] block21
        (fun i => if i = 1 then (4 : ℚ) / 5 else 0) = 0) ∧
    ∀ r : ℕ → ℚ, 0 ≤ r 0 → r 1 < 1 →
      selectPhoto [photoC, photoD] block21 r ≠ 1 := by
  constructor
  · refine ⟨by decide, by decide, by decide⟩
  · intro r h0 h1
    have eC : photoScore block21 photoC (r 0) = 11 / 2 + r 0 * (3 / 10) := by
      unfold photoScore photoC block21
      norm_num
      ring
    have eD : photoScore block21 photoD (r 1) = 5 + r 1 * (3 / 10) := by
      unfold photoScore photoD block21
      norm_num
      rw [abs_of_nonneg (by norm_num : (0 : ℚ) ≤ 1 / 2)]
      rw [max_eq_right (by norm_num : (0 : ℚ) ≤ 2 - 1 / 2)]
      ring
    have hC1 : (-1 : ℚ) < photoScore block21 photoC (r 0) := by
      rw [eC]
      nlinarith
    have hDC : ¬ (photoScore block21 photoC (r 0) <
        photoScore block21 photoD (r 1)) := by
      rw [eC, eD]
      nlinarith
    unfold selectPhoto
    simp only [selGo, gt_iff_lt]
    rw [if_pos hC1, if_neg hDC]
    simp

unseal Rat.add Rat.mul Rat.sub Rat.inv in
/-- Witness for the amended C5: at the concrete queue `[photoC, photoD]`
with all `Math.random()` draws zero, `selectPhoto` equals the
first-argmax specification. -/
theorem c5_witness :
    (∀ i : ℕ, (0 : ℚ) ≤ (fun _ : ℕ => (0 : ℚ)) i) ∧
      selectPhoto [photoC, photoD] block21 (fun _ => 0) =
        selectPhotoSpec [photoC, photoD] block21 (fun _ => 0) :=
  ⟨fun _ => le_refl 0,
    c5_selectPhoto_first_argmax [photoC, photoD] block21 (fun _ => 0)
      fun _ => le_refl 0⟩

/-! ### Layout Generator contract (Claim C4) -/

theorem validateLayout_score_nonneg (layoutBlocks : List Block)
    (constraints : Constraints) :
    0 ≤ (validateLayout layoutBlocks constraints).score := by
  unfold validateLayout
  exact le_max_left _ _

theorem cellList_zero (cols : ℕ) : cellList 0 cols = [] := by
  simp [cellList]

theorem cellList_succ (rows cols : ℕ) :
    cellList (rows + 1) cols =
      cellList rows cols ++ (List.range cols).map fun x => (x, rows) := by
  simp [cellList, List.range_succ]

theorem cellList_length (rows cols : ℕ) :
    (cellList rows cols).length = rows * cols := by
  induction rows with
  | zero => simp [cellList_zero]
  | succ r ih =>
    rw [cellList_succ]
    simp [ih, Nat.succ_mul]

theorem cellList_getElem? (cols : ℕ) :
    ∀ (rows i : ℕ), i < rows * cols →
      (cellList rows cols)[i]? = some (i % cols, i / cols) := by
  intro rows
  induction rows with
  | zero => intro i h; omega
  | succ r ih =>
    intro i h
    have h' : i < r * cols + cols := by
      rw [Nat.succ_mul] at h
      exact h
    rw [cellList_succ]
    by_cases hi : i < r * cols
    · rw [List.getElem?_append, if_pos (by rw [cellList_length]; exact hi)]
      exact ih i hi
    · push_neg at hi
      obtain ⟨j, hjlt, hij⟩ : ∃ j, j < cols ∧ i = r * cols + j :=
        ⟨i - r * cols, by omega, by omega⟩
      subst hij
      have h1 : (r * cols + j) % cols = j := by
        rw [Nat.mul_comm, Nat.mul_add_mod]
        exact Nat.mod_eq_of_lt hjlt
      have h2 : (r * cols + j) / cols = r := by
        rw [Nat.mul_comm, Nat.mul_add_div (by omega)]
        simp [Nat.div_eq_of_lt hjlt]
      rw [List.getElem?_append,
        if_neg (by rw [cellList_length]; omega), cellList_length,
        Nat.add_sub_cancel_left, List.getElem?_map,
        List.getElem?_range hjlt]
      simp [h1, h2]

theorem fallback_foldl (l : List (ℕ × ℕ)) :
    ∀ (acc : List Block) (n : ℕ),
      l.foldl (fun (a : List Block × ℕ) c =>
          (a.1 ++ [⟨c.1, c.2, 1, 1, a.2⟩], a.2 + 1)) (acc, n) =
        (acc ++ (l.enumFrom n).map fun ic => ⟨ic.2.1, ic.2.2, 1, 1, ic.1⟩,
          n + l.length) := by
  induction l with
  | nil => intro acc n; simp [List.enumFrom]
  | cons c t ih =>
    intro acc n
    rw [List.foldl_cons, ih]
    simp [List.enumFrom, List.append_assoc]
    omega

theorem createFallbackLayout_eq_map (rows cols : ℕ) :
    createFallbackLayout rows cols =
      ((cellList rows cols).enumFrom 0).map
        fun ic => ⟨ic.2.1, ic.2.2, 1, 1, ic.1⟩ := by
  unfold createFallbackLayout
  rw [fallback_foldl]
  simp

theorem createFallbackLayout_length (rows cols : ℕ) :
    (createFallbackLayout rows cols).length = rows * cols := by
  rw [createFallbackLayout_eq_map]
  simp [cellList_length]

/-- The uniform fallback equals the spec's closed form: `rows·cols` blocks,
each `1×1`, positioned and indexed row-major. -/
theorem createFallbackLayout_eq_spec (rows cols : ℕ) :
    createFallbackLayout rows cols = fallbackSpec rows cols := by
  apply List.ext_getElem?
  intro i
  by_cases h : i < rows * cols
  · rw [createFallbackLayout_eq_map]
    rw [List.getElem?_map, List.getElem?_enumFrom]
    rw [cellList_getElem? cols rows i h]
    unfold fallbackSpec
    rw [List.getElem?_map, List.getElem?_range h]
    simp
  · push_neg at h
    rw [List.getElem?_eq_none (by rw [createFallbackLayout_length]; exact h),
      List.getElem?_eq_none (by unfold fallbackSpec; simp; exact h)]

theorem bestFold_of_all_le (sc : ℕ → ℚ) (pl : ℕ → List Block) :
    ∀ (l : List ℕ) (best : Option (List Block)) (bs : ℚ),
      (∀ i ∈ l, sc i ≤ bs) →
      l.foldl (fun acc i => if sc i > acc.2 then (some (pl i), sc i) else acc)
        (best, bs) = (best, bs) := by
  intro l
  induction l with
  | nil => intro best bs _; rfl
  | cons i t ih =>
    intro best bs h
    have h0 : sc i ≤ bs := h i (List.mem_cons_self i t)
    rw [List.foldl_cons, if_neg (not_lt.mpr h0)]
    exact ih best bs fun j hj => h j (List.mem_cons_of_mem i hj)

theorem foldl_max_map_of_all_le (sc : ℕ → ℚ) (t : List ℕ) (b : ℚ)
    (h : ∀ i ∈ t, sc i ≤ b) : (t.map sc).foldl max b = b := by
  refine foldl_max_of_le _ b ?_
  intro x hx
  obtain ⟨i, hi, rfl⟩ := List.mem_map.mp hx
  exact h i hi

theorem bestFold_argmax (sc : ℕ → ℚ) (pl : ℕ → List Block) :
    ∀ (l : List ℕ) (best : Option (List Block)) (bs : ℚ),
      (∃ i ∈ l, bs < sc i) →
      ∃ i0, l.find? (fun i => sc i = (l.map sc).foldl max bs) = some i0 ∧
        l.foldl (fun acc i =>
            if sc i > acc.2 then (some (pl i), sc i) else acc) (best, bs) =
          (some (pl i0), sc i0) ∧
        sc i0 = (l.map sc).foldl max bs := by
  intro l
  induction l with
  | nil =>
    intro best bs h
    obtain ⟨i, hi, _⟩ := h
    cases hi
  | cons i t ih =>
    intro best bs h
    by_cases hgt : bs < sc i
    · rw [List.foldl_cons, if_pos hgt]
      have hmax0 : max bs (sc i) = sc i := max_eq_right hgt.le
      by_cases hall : ∀ j ∈ t, sc j ≤ sc i
      · have hM : (t.map sc).foldl max (max bs (sc i)) = sc i := by
          rw [hmax0]
          exact foldl_max_map_of_all_le sc t (sc i) hall
        refine ⟨i, ?_, ?_, ?_⟩
        · rw [List.find?_cons_of_pos _ (by simp [hM])]
        · rw [max_eq_right hgt.le] at hM
          rw [bestFold_of_all_le sc pl t (some (pl i)) (sc i) hall]
        · simp only [List.map_cons, List.foldl_cons, hM]
      · push_neg at hall
        obtain ⟨i1, hi1, hlt1⟩ := hall
        obtain ⟨i0, hfind, hfold, hmax⟩ :=
          ih (some (pl i)) (sc i) ⟨i1, hi1, hlt1⟩
        have hMlt : sc i < (t.map sc).foldl max (sc i) :=
          lt_of_lt_of_le hlt1
            (mem_le_foldl_max _ (sc i) (sc i1) (List.mem_map_of_mem sc hi1))
        refine ⟨i0, ?_, hfold, ?_⟩
        · rw [List.find?_cons_of_neg _ (by
            simp only [List.map_cons, List.foldl_cons, hmax0,
              decide_eq_true_eq]
            exact ne_of_lt hMlt)]
          simp only [List.map_cons, List.foldl_cons, hmax0]
          exact hfind
        · simp only [List.map_cons, List.foldl_cons, hmax0]
          exact hmax
    · push_neg at hgt
      rw [List.foldl_cons, if_neg (not_lt.mpr hgt)]
      have hmax0 : max bs (sc i) = bs := max_eq_left hgt
      have hex : ∃ j ∈ t, bs < sc j := by
        obtain ⟨j, hj, hltj⟩ := h
        rcases List.mem_cons.mp hj with rfl | hj2
        · exact absurd hltj (not_lt.mpr hgt)
        · exact ⟨j, hj2, hltj⟩
      obtain ⟨i0, hfind, hfold, hmax⟩ := ih best bs hex
      have hMgt : bs < (t.map sc).foldl max bs := by
        obtain ⟨j, hj, hltj⟩ := hex
        exact lt_of_lt_of_le hltj
          (mem_le_foldl_max _ bs (sc j) (List.mem_map_of_mem sc hj))
      refine ⟨i0, ?_, hfold, ?_⟩
      · rw [List.find?_cons_of_neg _ (by
          simp only [List.map_cons, List.foldl_cons, hmax0,
            decide_eq_true_eq]
          exact ne_of_lt (lt_of_le_of_lt hgt hMgt))]
        simp only [List.map_cons, List.foldl_cons, hmax0]
        exact hfind
      · simp only [List.map_cons, List.foldl_cons, hmax0]
        exact hmax

theorem glwvGo_eq (rows cols : ℕ) (c : Constraints) (rs : ℕ → Rand) :
    ∀ (fuel k : ℕ) (best : Option (List Block)) (bs : ℚ),
      glwvGo rows cols c rs fuel k best bs =
        (match (List.range' k fuel).find?
            (fun i =>
              (validateLayout (generateLayout rows cols (rs i)) c).isValid)
          with
        | some i => generateLayout rows cols (rs i)
        | none =>
          match (List.range' k fuel).foldl
              (fun acc i =>
                if (validateLayout (generateLayout rows cols (rs i)) c).score
                    > acc.2 then
                  (some (generateLayout rows cols (rs i)),
                    (validateLayout (generateLayout rows cols (rs i)) c).score)
                else acc) (best, bs) with
          | (some bl, s) =>
            if s > 50 then bl else createFallbackLayout rows cols
          | (none, _) => createFallbackLayout rows cols) := by
  intro fuel
  induction fuel with
  | zero =>
    intro k best bs
    cases best <;> rfl
  | succ fuel ih =>
    intro k best bs
    rw [List.range'_succ]
    by_cases hv :
        (validateLayout (generateLayout rows cols (rs k)) c).isValid
    · rw [List.find?_cons_of_pos _ (by simpa using hv)]
      simp only [glwvGo, hv, if_true]
    · rw [List.find?_cons_of_neg _ (by simpa using hv)]
      rw [List.foldl_cons]
      by_cases hs :
          (validateLayout (generateLayout rows cols (rs k)) c).score > bs
      · rw [if_pos hs]
        simp only [glwvGo, hv, Bool.false_eq_true, if_false, hs, if_true]
        exact ih (k + 1) _ _
      · rw [if_neg hs]
        simp only [glwvGo, hv, Bool.false_eq_true, if_false, hs, if_false]
        exact ih (k + 1) best bs

/-- Claim C4: `generateLayoutWithValidation` returns the first generated
layout whose validation is `isValid`; if no attempt validates, the (first)
highest-scoring candidate seen when that score exceeds 50; otherwise the
uniform fallback of exactly `rows·cols` row-major `1×1` blocks — in
particular always the fallback for `maxAttempts = 0`. -/
theorem c4_generateLayoutWithValidation_contract (rows cols : ℕ)
    (c : Constraints) (maxAttempts : ℕ) (rs : ℕ → Rand) :
    generateLayoutWithValidation rows cols c maxAttempts rs =
      generateValidatedSpec rows cols c maxAttempts rs ∧
    createFallbackLayout rows cols = fallbackSpec rows cols := by
  refine ⟨?_, createFallbackLayout_eq_spec rows cols⟩
  unfold generateLayoutWithValidation generateValidatedSpec
  rw [glwvGo_eq, ← List.range_eq_range']
  dsimp only
  cases hf : (List.range maxAttempts).find?
      (fun i =>
        (validateLayout (generateLayout rows cols (rs i)) c).isValid) with
  | some i => rfl
  | none =>
    rcases Nat.eq_zero_or_pos maxAttempts with hma | hma
    · subst hma
      simp only [List.range_zero, List.foldl_nil, List.find?_nil]
      exact createFallbackLayout_eq_spec rows cols
    · have hex : ∃ i ∈ List.range maxAttempts,
          (-1 : ℚ) <
            (validateLayout (generateLayout rows cols (rs i)) c).score :=
        ⟨0, List.mem_range.mpr hma,
          lt_of_lt_of_le (by norm_num) (validateLayout_score_nonneg _ _)⟩
      obtain ⟨i0, hfind, hfold, hmax⟩ := bestFold_argmax
        (fun i => (validateLayout (generateLayout rows cols (rs i)) c).score)
        (fun i => generateLayout rows cols (rs i))
        (List.range maxAttempts) none (-1) hex
      rw [hfold, hfind, hmax]
      dsimp only
      split_ifs
      · rfl
      · exact createFallbackLayout_eq_spec rows cols

/-! ### Position Calculator error handling (Claims C7, C10) -/

theorem calcGo_error_iff (g : GridConfig) :
    ∀ l : List PosBlock,
      (∃ e, calcGo g l = .error e) ↔ ∃ b ∈ l, posOutOfBounds b g := by
  intro l
  induction l with
  | nil =>
    constructor
    · rintro ⟨e, he⟩
      cases he
    · rintro ⟨b, hb, _⟩
      cases hb
  | cons b rest ih =>
    by_cases hob : posOutOfBounds b g
    · constructor
      · intro _
        exact ⟨b, List.mem_cons_self b rest, hob⟩
      · intro _
        refine ⟨.blockOutOfBounds b.index, ?_⟩
        simp only [calcGo, if_pos hob]
    · constructor
      · rintro ⟨e, he⟩
        simp only [calcGo, if_neg hob] at he
        rcases hrec : calcGo g rest with e2 | pr
        · obtain ⟨b2, hb2, hob2⟩ := ih.mp ⟨e2, hrec⟩
          exact ⟨b2, List.mem_cons_of_mem b hb2, hob2⟩
        · rw [hrec] at he
          obtain ⟨ps, ws⟩ := pr
          cases he
      · rintro ⟨b2, hb2, hob2⟩
        rcases List.mem_cons.mp hb2 with rfl | hb2r
        · exact absurd hob2 hob
        · obtain ⟨e2, he2⟩ := ih.mpr ⟨b2, hb2r, hob2⟩
          refine ⟨e2, ?_⟩
          simp only [calcGo, if_neg hob, he2]
  
theorem calcGo_ok (g : GridConfig) :
    ∀ (l : List PosBlock) (ps : List PositionResult) (ws : List ℕ),
      calcGo g l = .ok (ps, ws) →
      ps.length = l.length ∧
      ∀ b ∈ l,
        (jsRound (g.cellWidth * b.w - g.padding * 2) ≤ 0 ∨
          jsRound (g.cellHeight * b.h - g.padding * 2) ≤ 0) →
        b.index ∈ ws := by
  intro l
  induction l with
  | nil =>
    intro ps ws h
    cases h
    exact ⟨rfl, fun b hb _ => absurd hb (List.not_mem_nil b)⟩
  | cons b rest ih =>
    intro ps ws h
    by_cases hob : posOutOfBounds b g
    · simp only [calcGo, if_pos hob] at h
      cases h
    · simp only [calcGo, if_neg hob] at h
      rcases hrec : calcGo g rest with e2 | pr
      · rw [hrec] at h
        cases h
      · obtain ⟨ps2, ws2⟩ := pr
        rw [hrec] at h
        cases h
        obtain ⟨ihlen, ihmem⟩ := ih ps2 ws2 hrec
        constructor
        · simp [ihlen]
        · intro b2 hb2 hwarn
          rcases List.mem_cons.mp hb2 with rfl | hb2r
          · refine List.mem_append.mpr (Or.inl ?_)
            rw [if_pos hwarn]
            exact List.mem_singleton_self _
          · exact List.mem_append.mpr (Or.inr (ihmem b2 hb2r hwarn))

/-- Claim C7: `calculatePositions` throws exactly when the grid
configuration has a non-positive `cellWidth`, `cellHeight`, `cols` or
`rows`, or when some block lies outside the grid (`col+spanCols > cols`,
`row+spanRows > rows`, or negative `col`/`row`); a non-positive computed
`renderWidth`/`renderHeight` never causes a throw — on success one
`PositionResult` per block is still emitted and such blocks are only
recorded as warnings. -/
theorem c7_calculatePositions_error_contract
    (layoutBlocks : List PosBlock) (g : GridConfig) :
    ((∃ e, calculatePositions layoutBlocks g = .error e) ↔
      (g.cellWidth ≤ 0 ∨ g.cellHeight ≤ 0 ∨ g.cols ≤ 0 ∨ g.rows ≤ 0) ∨
        ∃ b ∈ layoutBlocks, posOutOfBounds b g) ∧
    ∀ ps ws, calculatePositions layoutBlocks g = .ok (ps, ws) →
      ps.length = layoutBlocks.length ∧
      ∀ b ∈ layoutBlocks,
        (jsRound (g.cellWidth * b.w - g.padding * 2) ≤ 0 ∨
          jsRound (g.cellHeight * b.h - g.padding * 2) ≤ 0) →
        b.index ∈ ws := by
  unfold calculatePositions
  split_ifs with h1 h2
  · have hb : g.cellWidth ≤ 0 ∨ g.cellHeight ≤ 0 ∨ g.cols ≤ 0 ∨
        g.rows ≤ 0 := by
      rcases h1 with h | h | h | h
      · exact Or.inl (le_of_eq h)
      · exact Or.inr (Or.inl (le_of_eq h))
      · exact Or.inr (Or.inr (Or.inl (le_of_eq h)))
      · exact Or.inr (Or.inr (Or.inr (le_of_eq h)))
    exact ⟨⟨fun _ => Or.inl hb, fun _ => ⟨_, rfl⟩⟩, fun ps ws h => by cases h⟩
  · exact ⟨⟨fun _ => Or.inl h2, fun _ => ⟨_, rfl⟩⟩, fun ps ws h => by cases h⟩
  · refine ⟨?_, calcGo_ok g layoutBlocks⟩
    rw [calcGo_error_iff g layoutBlocks]
    constructor
    · exact Or.inr
    · rintro (hbad | hex)
      · exact absurd hbad h2
      · exact hex

unseal Rat.add Rat.mul Rat.sub Rat.inv in
/-- Witness for C7: a concrete block spanning outside a `2×2` grid makes
`calculatePositions` throw. -/
theorem c7_witness :
    ∃ e, calculatePositions [(⟨0, 0, 3, 1, 5⟩ : PosBlock)]
        (createGridConfig 1200 1200 2 2 0 0) = .error e :=
  (c7_calculatePositions_error_contract [⟨0, 0, 3, 1, 5⟩]
      (createGridConfig 1200 1200 2 2 0 0)).1.mpr
    (Or.inr ⟨⟨0, 0, 3, 1, 5⟩, by decide, by decide⟩)

/-- Claim C10: `createGridConfig` performs no input validation — whenever
the usable width is smaller than the (positive) column count, in particular
when `2·bleed ≥ pageWidth`, it returns a config whose `cellWidth` is zero or
negative, and such a config is rejected only later: `calculatePositions`
throws on it for every block list. -/
theorem c10_createGridConfig_unvalidated
    (pageWidth pageHeight gridCols gridRows padding bleed : ℚ)
    (hc : 0 < gridCols)
    (hbad : pageWidth ≤ 2 * bleed ∨ pageWidth - bleed * 2 < gridCols) :
    (createGridConfig pageWidth pageHeight gridCols gridRows padding
        bleed).cellWidth ≤ 0 ∧
    ∀ layoutBlocks : List PosBlock, ∃ e,
      calculatePositions layoutBlocks
        (createGridConfig pageWidth pageHeight gridCols gridRows padding
          bleed) = .error e := by
  have hu : pageWidth - bleed * 2 < gridCols := by
    rcases hbad with h | h
    · linarith
    · exact h
  have hq : (pageWidth - bleed * 2) / gridCols < 1 :=
    (div_lt_one hc).mpr hu
  have hfl : (⌊(pageWidth - bleed * 2) / gridCols⌋ : ℤ) ≤ 0 := by
    have h1 : ⌊(pageWidth - bleed * 2) / gridCols⌋ < 1 := by
      rw [Int.floor_lt]
      push_cast
      exact hq
    omega
  have hcw : (createGridConfig pageWidth pageHeight gridCols gridRows padding
      bleed).cellWidth ≤ 0 := by
    unfold createGridConfig
    dsimp only
    exact_mod_cast hfl
  refine ⟨hcw, ?_⟩
  intro layoutBlocks
  unfold calculatePositions
  split_ifs with h1 h2
  · exact ⟨_, rfl⟩
  · exact ⟨_, rfl⟩
  · exact absurd (Or.inl hcw) h2

unseal Rat.add Rat.mul Rat.sub Rat.inv in
/-- Witness for C10: `createGridConfig(100, 100, 4, 4, 0, 50)` has zero
usable width, hence `cellWidth = 0`, and `calculatePositions` rejects it. -/
theorem c10_witness :
    ((0 : ℚ) < 4 ∧
      ((100 : ℚ) ≤ 2 * 50 ∨ (100 : ℚ) - 50 * 2 < 4)) ∧
    ((createGridConfig 100 100 4 4 0 50).cellWidth ≤ 0 ∧
      ∀ layoutBlocks : List PosBlock, ∃ e,
        calculatePositions layoutBlocks (createGridConfig 100 100 4 4 0 50) =
          .error e) :=
  ⟨⟨by decide, Or.inl (by decide)⟩,
    c10_createGridConfig_unvalidated 100 100 4 4 0 50 (by decide)
      (Or.inl (by decide))⟩

/-! ### Page Assembler loop (Claims C2, C6) -/

theorem cons_eraseIdx_perm {l : List Photo} {j : ℕ} {p : Photo}
    (h : l[j]? = some p) : (p :: l.eraseIdx j).Perm l := by
  obtain ⟨hj, hget⟩ := List.getElem?_eq_some.mp h
  have hsplit : List.take j l ++ p :: List.drop (j + 1) l = l := by
    rw [← hget, List.getElem_cons_drop l j hj]
    exact List.take_append_drop j l
  rw [List.eraseIdx_eq_take_drop_succ]
  have h2 : (List.take j l ++ p :: List.drop (j + 1) l).Perm
      (p :: (List.take j l ++ List.drop (j + 1) l)) := List.perm_middle
  exact h2.symm.trans (by rw [hsplit])

theorem assignPage_core (blocks : List Block) (rOk : Block → Bool)
    (rnd : ℕ → ℕ → ℚ) (q0 : List Photo) (hr : ∀ k i, 0 ≤ rnd k i) :
    ∀ m, m ≤ min blocks.length q0.length →
      (((List.range m).foldl (assignStep blocks rOk rnd)
          (q0, [], [])).1.length = q0.length - m) ∧
      (((List.range m).foldl (assignStep blocks rOk rnd)
          (q0, [], [])).2.1 ++
        ((List.range m).foldl (assignStep blocks rOk rnd)
          (q0, [], [])).2.2 ++
        ((List.range m).foldl (assignStep blocks rOk rnd)
          (q0, [], [])).1).Perm q0 ∧
      ((∀ bl, rOk bl = true) →
        ((List.range m).foldl (assignStep blocks rOk rnd)
          (q0, [], [])).2.2 = []) := by
  intro m
  induction m with
  | zero =>
    intro _
    exact ⟨rfl, by simp, fun _ => rfl⟩
  | succ m ih =>
    intro hm
    have hm' : m ≤ min blocks.length q0.length := by omega
    obtain ⟨ihlen, ihperm, ihok⟩ := ih hm'
    set st := (List.range m).foldl (assignStep blocks rOk rnd) (q0, [], [])
      with hstdef
    have hfold : (List.range (m + 1)).foldl (assignStep blocks rOk rnd)
        (q0, [], []) = assignStep blocks rOk rnd st m := by
      rw [List.range_succ, List.foldl_append, List.foldl_cons, List.foldl_nil]
    have hmB : m < blocks.length := by omega
    obtain ⟨b, hbm⟩ : ∃ b, blocks[m]? = some b :=
      ⟨blocks[m], List.getElem?_eq_getElem hmB⟩
    have hqlen : st.1.length = q0.length - m := ihlen
    have hqpos : 0 < st.1.length := by omega
    have hqne : st.1 ≠ [] := List.ne_nil_of_length_pos hqpos
    obtain ⟨hj0, hjlen⟩ := selectPhoto_bounds st.1 b (rnd m) hqne (hr m)
    set j := selectPhoto st.1 b (rnd m) with hjdef
    have hjne : j ≠ -1 := by omega
    obtain ⟨p, hp⟩ : ∃ p, st.1[j.toNat]? = some p :=
      ⟨st.1[j.toNat], List.getElem?_eq_getElem hjlen⟩
    have hstep : assignStep blocks rOk rnd st m =
        (st.1.eraseIdx j.toNat,
          (if rOk b then st.2.1 ++ [p] else st.2.1),
          (if rOk b then st.2.2 else st.2.2 ++ [p])) := by
      unfold assignStep
      rw [hbm]
      dsimp only
      rw [← hjdef, if_neg hjne, hp]
    rw [hfold, hstep]
    have hcount := (cons_eraseIdx_perm hp).count_eq
    have hperm0 := ihperm.count_eq
    refine ⟨?_, ?_, ?_⟩
    · dsimp only
      rw [List.length_eraseIdx, if_pos hjlen]
      omega
    · dsimp only
      rw [List.perm_iff_count]
      intro x
      have h1 := hperm0 x
      have h2 := hcount x
      by_cases hok : rOk b = true <;> by_cases hpx : p = x <;>
        simp [hok, hpx, List.count_append, List.count_cons] at h1 h2 ⊢ <;>
        omega
    · intro hall
      dsimp only
      rw [if_pos (hall b)]
      exact ihok hall

theorem assignPage_shape (blocks : List Block) (rOk : Block → Bool)
    (rnd : ℕ → ℕ → ℚ) (q0 : List Photo) (hr : ∀ k i, 0 ≤ rnd k i) :
    (assignPage blocks rOk rnd q0).1.length =
        q0.length - min blocks.length q0.length ∧
      ((assignPage blocks rOk rnd q0).2.1 ++
        (assignPage blocks rOk rnd q0).2.2 ++
        (assignPage blocks rOk rnd q0).1).Perm q0 ∧
      ((∀ bl, rOk bl = true) → (assignPage blocks rOk rnd q0).2.2 = []) :=
  assignPage_core blocks rOk rnd q0 hr (min blocks.length q0.length)
    (le_refl _)

theorem assignPage_progress (blocks : List Block) (rOk : Block → Bool)
    (rnd : ℕ → ℕ → ℚ) (q0 : List Photo) (hq : q0 ≠ []) (hbl : blocks ≠ [])
    (hr : ∀ k i, 0 ≤ rnd k i) :
    (assignPage blocks rOk rnd q0).1.length < q0.length := by
  have h1 := (assignPage_shape blocks rOk rnd q0 hr).1
  have hB : 0 < blocks.length := List.length_pos.mpr hbl
  have hN : 0 < q0.length := List.length_pos.mpr hq
  have : 0 < min blocks.length q0.length := lt_min hB hN
  omega

theorem pageLoop_main (blocksFor : ℕ → List Block)
    (rOkFor : ℕ → Block → Bool) (rand : ℕ → ℕ → ℕ → ℚ)
    (hb : ∀ n, blocksFor n ≠ []) (hr : ∀ n k i, 0 ≤ rand n k i) :
    ∀ (fuel : ℕ) (q : List Photo) (pageNo : ℕ), q.length ≤ fuel →
      (pageLoop blocksFor rOkFor rand fuel pageNo q).2 = [] ∧
      (pageLoop blocksFor rOkFor rand fuel pageNo q).1.length ≤ q.length ∧
      (((pageLoop blocksFor rOkFor rand fuel pageNo q).1.map
          fun pg => pg.1 ++ pg.2).flatten).Perm q ∧
      ((∀ n bl, rOkFor n bl = true) →
        (((pageLoop blocksFor rOkFor rand fuel pageNo q).1.map
          fun pg => pg.1).flatten).Perm q) := by
  intro fuel
  induction fuel with
  | zero =>
    intro q pageNo hlen
    have hq : q = [] := List.eq_nil_of_length_eq_zero (Nat.le_zero.mp hlen)
    subst hq
    exact ⟨rfl, by simp [pageLoop], by simp [pageLoop], fun _ => by
      simp [pageLoop]⟩
  | succ fuel ih =>
    intro q pageNo hlen
    by_cases hq : q = []
    · subst hq
      exact ⟨rfl, by simp [pageLoop], by simp [pageLoop], fun _ => by
        simp [pageLoop]⟩
    · have hunf : pageLoop blocksFor rOkFor rand (fuel + 1) pageNo q =
          ((((assignPage (blocksFor pageNo) (rOkFor pageNo) (rand pageNo)
              q).2.1,
            (assignPage (blocksFor pageNo) (rOkFor pageNo) (rand pageNo)
              q).2.2) ::
            (pageLoop blocksFor rOkFor rand fuel (pageNo + 1)
              (assignPage (blocksFor pageNo) (rOkFor pageNo) (rand pageNo)
                q).1).1),
            (pageLoop blocksFor rOkFor rand fuel (pageNo + 1)
              (assignPage (blocksFor pageNo) (rOkFor pageNo) (rand pageNo)
                q).1).2) := by
        simp only [pageLoop, if_neg hq]
      obtain ⟨hlen1, hperm1, hok1⟩ := assignPage_shape (blocksFor pageNo)
        (rOkFor pageNo) (rand pageNo) q (hr pageNo)
      have hprog := assignPage_progress (blocksFor pageNo) (rOkFor pageNo)
        (rand pageNo) q hq (hb pageNo) (hr pageNo)
      set st := assignPage (blocksFor pageNo) (rOkFor pageNo) (rand pageNo) q
        with hstdef
      have hrec := ih st.1 (pageNo + 1) (by omega)
      obtain ⟨hr2, hr1len, hrperm, hrok⟩ := hrec
      rw [hunf]
      refine ⟨hr2, ?_, ?_, ?_⟩
      · simp only [List.length_cons]
        omega
      · simp only [List.map_cons, List.flatten_cons]
        have hstep : ((st.2.1 ++ st.2.2) ++
            ((pageLoop blocksFor rOkFor rand fuel (pageNo + 1)
              st.1).1.map fun pg => pg.1 ++ pg.2).flatten).Perm
            ((st.2.1 ++ st.2.2) ++ st.1) :=
          List.Perm.append_left _ hrperm
        refine hstep.trans ?_
        exact hperm1
      · intro hall
        simp only [List.map_cons, List.flatten_cons]
        have hskip : st.2.2 = [] := hok1 fun bl => hall pageNo bl
        have hstep : (st.2.1 ++
            ((pageLoop blocksFor rOkFor rand fuel (pageNo + 1)
              st.1).1.map fun pg => pg.1).flatten).Perm
            (st.2.1 ++ st.1) := List.Perm.append_left _ (hrok hall)
        refine hstep.trans ?_
        have := hperm1
        rw [hskip] at this
        simpa using this

/-- Claim C2 (amended): starting the Page Assembler loop with `N ≥ 1`
queued photos (admissible selector randomness, every page's layout
non-empty), `N` iterations suffice: the loop terminates with an empty
queue, produces at most `N` pages, and the photos appearing in placements
together with the photos `renderPhoto` silently dropped (blocks whose
render check fails) form a permutation of the initial queue — each photo is
consumed exactly once and placed at most once.  When every block's render
check passes, the placements alone are a permutation of the queue: each
photo appears in exactly one placement.  Every iteration with a non-empty
queue and at least one block removes at least one photo. -/
theorem c2_page_assembler_conservation (blocksFor : ℕ → List Block)
    (rOkFor : ℕ → Block → Bool) (rand : ℕ → ℕ → ℕ → ℚ)
    (photoQueue : List Photo) (hq : photoQueue ≠ [])
    (hb : ∀ n, blocksFor n ≠ []) (hr : ∀ n k i, 0 ≤ rand n k i) :
    (pageLoop blocksFor rOkFor rand photoQueue.length 0 photoQueue).2 =
        [] ∧
    (pageLoop blocksFor rOkFor rand photoQueue.length 0
        photoQueue).1.length ≤ photoQueue.length ∧
    (((pageLoop blocksFor rOkFor rand photoQueue.length 0
        photoQueue).1.map fun pg => pg.1 ++ pg.2).flatten).Perm
      photoQueue ∧
    ((∀ n bl, rOkFor n bl = true) →
      (((pageLoop blocksFor rOkFor rand photoQueue.length 0
        photoQueue).1.map fun pg => pg.1).flatten).Perm photoQueue) ∧
    (∀ (q : List Photo) (blocks : List Block) (rOk : Block → Bool)
        (rnd : ℕ → ℕ → ℚ), q ≠ [] → blocks ≠ [] →
      (∀ k i, 0 ≤ rnd k i) →
      (assignPage blocks rOk rnd q).1.length < q.length) := by
  obtain ⟨h1, h2, h3, h4⟩ := pageLoop_main blocksFor rOkFor rand hb hr
    photoQueue.length photoQueue 0 (le_refl _)
  exact ⟨h1, h2, h3, h4, fun q blocks rOk rnd hq2 hb2 hr2 =>
    assignPage_progress blocks rOk rnd q hq2 hb2 hr2⟩

unseal Rat.add Rat.mul Rat.sub Rat.inv in
/-- Witness for the amended C2: a single photo assigned through one `1×1`
block (render check passing) ends with that photo in exactly one
placement. -/
theorem c2_witness :
    (((pageLoop (fun _ => [block11]) (fun _ _ => true) (fun _ _ _ => 0)
        [photoA].length 0 [photoA]).1.map fun pg => pg.1).flatten).Perm
      [photoA] :=
  ((c2_page_assembler_conservation (fun _ => [block11]) (fun _ _ => true)
      (fun _ _ _ => 0) [photoA] (by simp) (fun _ => by simp)
      (fun _ _ _ => le_refl 0)).2.2.2.1) (fun _ _ => rfl)

unseal Rat.add Rat.mul Rat.sub Rat.inv in
/-- Counterexample to C2 as stated: with the reachable configuration
`--size 48x48px -g 6` (cell width 8, padding 4) a `1×1` block's computed
render width is 0, so `renderPhoto` drops the placement while the photo is
still spliced out of the queue.  Running the loop with one photo produces
one page whose placement list is empty: the queue is exhausted but the
photo appears in no placement — it is lost, contradicting "each of the N
photos appears in exactly one placement". -/
theorem c2_counterexample :
    renderOkFromPositions tinyPositions block11 = false ∧
    pageLoop (fun _ => [block11])
        (fun _ => renderOkFromPositions tinyPositions)
        (fun _ _ _ => 0) 1 0 [photoA] =
      ([([], [photoA])], []) := by
  constructor
  · decide
  · decide

/-- Counterexample to C6 as stated: for a single remaining photo,
`generateGrid` forces `Math.max(2, ceil(sqrt(1))) = 2`, a `2×2` grid — not
a `1×1` grid (and the page's single block need not be `1×1`). -/
theorem c6_counterexample :
    generateGridSize 3 (some 1) = (2, 2) ∧
      generateGridSize 3 (some 1) ≠ (1, 1) := by
  constructor
  · decide
  · decide

/-- Claim C6 (amended): when the queue holds exactly one photo at the start
of a page, the grid is forced to `2×2` (not `1×1`), and the Page Assembler
produces exactly one page and terminates with an empty queue; the single
photo is consumed exactly once — either placed or silently dropped by
`renderPhoto` — and when its block's render check passes it is the page's
only placement. -/
theorem c6_single_photo_one_page (gridOpt : ℕ) (p : Photo)
    (bs : List Block) (rOkFor : ℕ → Block → Bool) (rand : ℕ → ℕ → ℕ → ℚ)
    (hbs : bs ≠ []) (hr : ∀ n k i, 0 ≤ rand n k i) :
    generateGridSize gridOpt (some 1) = (2, 2) ∧
    pageLoop (fun _ => bs) rOkFor rand 1 0 [p] =
      ([((assignPage bs (rOkFor 0) (rand 0) [p]).2.1,
        (assignPage bs (rOkFor 0) (rand 0) [p]).2.2)], []) ∧
    (assignPage bs (rOkFor 0) (rand 0) [p]).2.1 ++
      (assignPage bs (rOkFor 0) (rand 0) [p]).2.2 = [p] ∧
    ((∀ bl, rOkFor 0 bl = true) →
      (assignPage bs (rOkFor 0) (rand 0) [p]).2.1 = [p]) := by
  obtain ⟨hlen, hperm, hskips⟩ :=
    assignPage_shape bs (rOkFor 0) (rand 0) [p] (hr 0)
  have hbpos : 0 < bs.length := List.length_pos.mpr hbs
  have hmin : min bs.length ([p] : List Photo).length = 1 := by
    simp only [List.length_singleton]
    omega
  have hq1 : (assignPage bs (rOkFor 0) (rand 0) [p]).1 = [] := by
    have : (assignPage bs (rOkFor 0) (rand 0) [p]).1.length = 0 := by
      rw [hlen, hmin]
      simp
    exact List.eq_nil_of_length_eq_zero this
  have hcons : (assignPage bs (rOkFor 0) (rand 0) [p]).2.1 ++
      (assignPage bs (rOkFor 0) (rand 0) [p]).2.2 = [p] := by
    have hp2 := hperm
    rw [hq1] at hp2
    simp only [List.append_nil] at hp2
    exact List.perm_singleton.mp hp2
  refine ⟨?_, ?_, hcons, ?_⟩
  · have hcs : ceilSqrt 1 = 1 := by decide
    unfold generateGridSize
    simp [hcs]
  · have hne : ([p] : List Photo) ≠ [] := by simp
    simp only [pageLoop, if_neg hne]
    rw [hq1]
  · intro hok
    have hskip : (assignPage bs (rOkFor 0) (rand 0) [p]).2.2 = [] :=
      hskips hok
    rw [hskip] at hcons
    simpa using hcons

unseal Rat.add Rat.mul Rat.sub Rat.inv in
/-- Witness for the amended C6: a concrete single-photo run whose only
block's render check passes — forced `2×2` grid, exactly one page with the
photo as its only placement, empty queue. -/
theorem c6_witness :
    generateGridSize 3 (some 1) = (2, 2) ∧
      pageLoop (fun _ => [block11]) (fun _ _ => true) (fun _ _ _ => 0) 1 0
        [photoA] = ([([photoA], [])], []) := by
  obtain ⟨hgrid, hpage, hcons, himp⟩ := c6_single_photo_one_page 3 photoA
    [block11] (fun _ _ => true) (fun _ _ _ => 0) (by simp)
    (fun _ _ _ => le_refl 0)
  have h1 : (assignPage [block11] ((fun _ : ℕ => fun _ : Block => true) 0)
      ((fun _ _ _ : ℕ => (0 : ℚ)) 0) [photoA]).2.1 = [photoA] :=
    himp fun _ => rfl
  have h2 : (assignPage [block11] ((fun _ : ℕ => fun _ : Block => true) 0)
      ((fun _ _ _ : ℕ => (0 : ℚ)) 0) [photoA]).2.2 = [] := by
    rw [h1] at hcons
    simpa using hcons
  rw [hpage, h1, h2]
  exact ⟨hgrid, rfl⟩

end Collage
